import Mathlib

/-!
Verification of the retry middleware state machine in
`src/tower/src/retry/future.rs` (`ResponseFuture::poll`).

The Rust code drives one logical call through a loop over three states:

* `State::Called(future)`  — polling the future returned by `Service::call`;
* `State::Checking(future)` — polling the future returned by `Policy::retry`;
* `State::Retrying` — polling `Service::poll_ready` before the next attempt.

The shallow embedding below replaces each external future by its resolved
value (a pending inner future simply means the whole `poll` returns
`Poll::Pending` with the state unchanged, so pending polls are stutter steps
and are not modelled).  The wrapped service and the policy are abstract trait
objects in the source; they are modelled by an oracle environment `Env`:

* `Env.call k req` — the outcome the `k`-th invocation of `Service::call`
  (0-indexed over the whole logical call) resolves to;
* `Env.poll_ready k` — the resolution of the readiness check that precedes
  what would become call number `k` (each `Retrying` phase has a distinct
  number of issued calls, so this indexing is injective over phases);
* `Env.retry p req outcome` — `none` when `Policy::retry` returns `None`
  ("no retry"), and `some p'` when it returns `Some(future)` with the future
  resolving to the updated policy state `p'`;
* `Env.clone_request p req` — the result of `Policy::clone_request`.

`Conf` mirrors the fields of `ResponseFuture` (`request`, the policy held
inside the `Retry` wrapper, `state`) plus a ghost counter `nCalls` of service
calls issued so far, used only to count attempts.  `pollStep` is one
iteration of the `loop` in `ResponseFuture::poll` in which the inner future
is ready; `run` iterates it with explicit fuel.  The `expect` panic
`"retrying requires cloned request"` is modelled by `pollStep` returning
`none`.
-/

/-- Outcome of one attempt: `Result<S::Response, S::Error>` in the source. -/
abbrev Outcome (Res Err : Type) := Except Err Res

/-- Mirror of the Rust `enum State<F, P>`: `Called` carries the service-call
future (modelled by its resolved outcome), `Checking` carries the policy
future (modelled by the updated policy state it resolves to), `Retrying`
carries nothing. -/
inductive State (Res Err Pol : Type) where
  | called (result : Outcome Res Err)
  | checking (newPolicy : Pol)
  | retrying
deriving Repr

/-- Oracle environment standing for the wrapped service and the policy,
which are abstract trait parameters (`S: Service<Request>`,
`P: Policy<Request, S::Response, S::Error>`) in the source. -/
structure Env (Req Res Err Pol : Type) where
  call : Nat → Req → Outcome Res Err
  poll_ready : Nat → Except Err Unit
  retry : Pol → Req → Outcome Res Err → Option Pol
  clone_request : Pol → Req → Option Req

/-- The fields of `ResponseFuture` (`request: Option<Request>`, the policy
stored in the `retry: Retry<P, S>` field, `state: State<..>`), plus the
ghost attempt counter `nCalls` (number of `Service::call` invocations issued
so far for this logical call). -/
structure Conf (Req Res Err Pol : Type) where
  request : Option Req
  policy : Pol
  state : State Res Err Pol
  nCalls : Nat
deriving Repr

/-- Result of one loop iteration of `poll`: either the future returns
`Poll::Ready(out)` (the fields of the future at that moment are kept, since
the Rust value still owns them after returning), or the loop continues with
updated fields. -/
inductive StepRes (Req Res Err Pol : Type) where
  | done (out : Outcome Res Err) (final : Conf Req Res Err Pol)
  | next (c : Conf Req Res Err Pol)
deriving Repr

/-- One iteration of the `loop` in `ResponseFuture::poll`, assuming the
inner future being polled is ready (a pending inner future leaves the state
untouched and is not modelled).  Returns `none` exactly when the source
panics at `.expect("retrying requires cloned request")`. -/
def pollStep (env : Env Req Res Err Pol) (c : Conf Req Res Err Pol) :
    Option (StepRes Req Res Err Pol) :=
  match c.state with
  | .called result =>
    match c.request with
    | some req =>
      match env.retry c.policy req result with
      | some checking => some (.next { c with state := .checking checking })
      | none => some (.done result c)
    | none =>
      -- request wasn't cloned, so no way to retry it
      some (.done result c)
  | .checking newPolicy =>
    some (.next { c with policy := newPolicy, state := .retrying })
  | .retrying =>
    match env.poll_ready c.nCalls with
    | .error e => some (.done (.error e) c)
    | .ok _ =>
      match c.request with
      | none => none
      | some req =>
        some (.next { request := env.clone_request c.policy req,
                      policy := c.policy,
                      state := .called (env.call c.nCalls req),
                      nCalls := c.nCalls + 1 })

/-- Mirror of `ResponseFuture::new(request, retry, future)`: the initial
state is `Called(future)` and one service call (the one whose future is
handed in) has already been issued. -/
def ResponseFuture.new (request : Option Req) (policy : Pol)
    (future : Outcome Res Err) : Conf Req Res Err Pol :=
  { request := request, policy := policy,
    state := .called future, nCalls := 1 }

/-- Result of driving the future: panic, fuel exhausted (still looping), or
completion with the final outcome and the fields at completion. -/
inductive RunRes (Req Res Err Pol : Type) where
  | panicked
  | outOfFuel (c : Conf Req Res Err Pol)
  | done (out : Outcome Res Err) (final : Conf Req Res Err Pol)
deriving Repr

/-- Iterate `pollStep` until the future completes, with explicit fuel. -/
def run (env : Env Req Res Err Pol) :
    Nat → Conf Req Res Err Pol → RunRes Req Res Err Pol
  | 0, c => .outOfFuel c
  | fuel + 1, c =>
    match pollStep env c with
    | none => .panicked
    | some (.done out final) => .done out final
    | some (.next c') => run env fuel c'

theorem run_succ (env : Env Req Res Err Pol) (fuel : Nat)
    (c : Conf Req Res Err Pol) :
    run env (fuel + 1) c =
      match pollStep env c with
      | none => .panicked
      | some (.done out final) => .done out final
      | some (.next c') => run env fuel c' := rfl

/-- The request-held invariant used to show the `expect` cannot panic: in
the `Checking` and `Retrying` states a request is always held. -/
def reqInv (c : Conf Req Res Err Pol) : Bool :=
  match c.state with
  | .called _ => true
  | .checking _ => c.request.isSome
  | .retrying => c.request.isSome

/-- Modelled from the spec: `Retry::call` (in `retry/mod.rs`, which is not part
of this source snapshot) — "attempt to clone the incoming request via the
policy; begin the state machine with the held (possibly absent) cloned request
and the original request handed to the first service invocation."  The first
service call is issued with the caller's request `req0`, and the `request`
field of the future holds the policy's clone of `req0`. -/
def retryCall (env : Env Req Res Err Pol) (pol : Pol) (req0 : Req) :
    Conf Req Res Err Pol :=
  { request := env.clone_request pol req0, policy := pol,
    state := .called (env.call 0 req0), nCalls := 1 }

/-- The held request is either absent or equal to the logical call's original
request `req0`: the invariant backing the claim that the policy is always
consulted with the original request. -/
def heldIsOriginal (req0 : Req) (c : Conf Req Res Err Pol) : Prop :=
  c.request = none ∨ c.request = some req0

/-- Concrete test environment whose policy never retries. -/
def envNone : Env Nat Nat Nat Nat :=
  { call := fun k _ => .error k, poll_ready := fun _ => .ok (),
    retry := fun _ _ _ => none, clone_request := fun _ r => some r }

/-- Concrete test environment whose readiness check always fails with 7. -/
def envReadyErr : Env Nat Nat Nat Nat :=
  { call := fun k _ => .error k, poll_ready := fun _ => .error 7,
    retry := fun p _ _ => some p, clone_request := fun _ r => some r }

/-- Concrete test environment that always retries, always ready. -/
def envId : Env Nat Nat Nat Nat :=
  { call := fun k _ => .error k, poll_ready := fun _ => .ok (),
    retry := fun p _ _ => some p, clone_request := fun _ r => some r }

/-- Concrete test environment whose policy counts down a retry budget. -/
def envCount : Env Nat Nat Nat Nat :=
  { call := fun k _ => .error (10 * k), poll_ready := fun _ => .ok (),
    retry := fun p _ _ => if p = 0 then none else some (p - 1),
    clone_request := fun _ r => some r }

/-- Concrete configuration sitting in the `Retrying` state. -/
def confRetrying : Conf Nat Nat Nat Nat :=
  { request := some 4, policy := 0, state := .retrying, nCalls := 1 }

/-- Concrete configuration sitting in the `Checking` state. -/
def confChecking : Conf Nat Nat Nat Nat :=
  { request := some 4, policy := 0, state := .checking 1, nCalls := 1 }

/-- Once `pollStep` reports `.next c'`, running with one more unit of fuel
continues from `c'`. -/
theorem run_next (env : Env Req Res Err Pol) {c c' : Conf Req Res Err Pol}
    (fuel : Nat) (h : pollStep env c = some (.next c')) :
    run env (fuel + 1) c = run env fuel c' := by
  rw [run_succ, h]

/-- Once `pollStep` reports `.done`, running with any positive fuel finishes
with that result. -/
theorem run_done (env : Env Req Res Err Pol) {c final : Conf Req Res Err Pol}
    {out : Outcome Res Err} (fuel : Nat)
    (h : pollStep env c = some (.done out final)) :
    run env (fuel + 1) c = .done out final := by
  rw [run_succ, h]

/-- C2: a `ResponseFuture` holding no request (the request could not be
cloned) finalizes, in a single poll iteration, with exactly the outcome the
in-flight attempt resolved to; the environment — in particular the policy's
`retry` — is arbitrary and is never consulted, the fields are left untouched,
and the call count stays at 1 (no second attempt). -/
theorem no_clone_no_retry (env : Env Req Res Err Pol) (p : Pol)
    (result : Outcome Res Err) (fuel : Nat) :
    run env (fuel + 1) (ResponseFuture.new none p result) =
      .done result (ResponseFuture.new none p result) ∧
    (ResponseFuture.new none p result : Conf Req Res Err Pol).nCalls = 1 := by
  constructor
  · exact run_done env fuel (by simp [pollStep, ResponseFuture.new])
  · rfl

/-- C3: if, in the `Retrying` state, the readiness check resolves to an
error, the future finalizes at once (whatever fuel is left) with exactly
that error, with all fields — in particular the attempt counter — unchanged:
the policy is not consulted and the next call is never issued. -/
theorem readiness_error_short_circuit (env : Env Req Res Err Pol)
    (c : Conf Req Res Err Pol) (e : Err) (fuel : Nat)
    (hstate : c.state = .retrying)
    (hready : env.poll_ready c.nCalls = .error e) :
    run env (fuel + 1) c = .done (.error e) c := by
  exact run_done env fuel (by simp [pollStep, hstate, hready])

theorem readiness_error_short_circuit_witness :
    run envReadyErr 5 confRetrying = .done (.error 7) confRetrying :=
  readiness_error_short_circuit envReadyErr confRetrying 7 4 rfl rfl

/-- C4: when the policy answers "no retry" (`None`) on a resolved outcome,
the future returns exactly that outcome, unmodified; in particular, started
on a first attempt (success or error) that the policy declines to retry, the
call finishes with that outcome after exactly one attempt. -/
theorem no_retry_returns_outcome (env : Env Req Res Err Pol)
    (p : Pol) (req : Req) (result : Outcome Res Err)
    (hnone : env.retry p req result = none) :
    (∀ c : Conf Req Res Err Pol, c.state = .called result →
       c.request = some req → c.policy = p →
       pollStep env c = some (.done result c)) ∧
    (∀ fuel, run env (fuel + 1) (ResponseFuture.new (some req) p result) =
       .done result (ResponseFuture.new (some req) p result)) ∧
    (ResponseFuture.new (some req) p result : Conf Req Res Err Pol).nCalls = 1 := by
  refine ⟨?_, ?_, rfl⟩
  · intro c hstate hreq hpol
    simp [pollStep, hstate, hreq, hpol, hnone]
  · intro fuel
    exact run_done env fuel (by simp [pollStep, ResponseFuture.new, hnone])

theorem no_retry_returns_outcome_witness :
    pollStep envNone (ResponseFuture.new (some 9) 0 (.ok 5)) =
      some (.done (.ok 5) (ResponseFuture.new (some 9) 0 (.ok 5))) ∧
    run envNone 1 (ResponseFuture.new (some 9) 0 (.ok 5)) =
      .done (.ok 5) (ResponseFuture.new (some 9) 0 (.ok 5)) :=
  ⟨(no_retry_returns_outcome envNone 0 9 (.ok 5) rfl).1
      (ResponseFuture.new (some 9) 0 (.ok 5)) rfl rfl rfl,
   (no_retry_returns_outcome envNone 0 9 (.ok 5) rfl).2.1 0⟩

/-- C9: when the readiness check fails in the `Retrying` state, the poll
returns the error with the future's fields exactly as they were — in
particular the `request` field still holds the same value: the error return
happens before `request.take()`. -/
theorem readiness_error_request_intact (env : Env Req Res Err Pol)
    (c : Conf Req Res Err Pol) (e : Err)
    (hstate : c.state = .retrying)
    (hready : env.poll_ready c.nCalls = .error e) :
    ∃ final, pollStep env c = some (.done (.error e) final) ∧
      final.request = c.request ∧ final = c := by
  exact ⟨c, by simp [pollStep, hstate, hready], rfl, rfl⟩

theorem readiness_error_request_intact_witness :
    ∃ final, pollStep envReadyErr confRetrying = some (.done (.error 7) final) ∧
      final.request = confRetrying.request ∧ final = confRetrying :=
  readiness_error_request_intact envReadyErr confRetrying 7 rfl rfl

/-- C10: the resolution of the `Checking` state updates only the policy
field and the state tag: the request and the attempt counter are exactly
preserved, and the machine moves to `Retrying` carrying the resolved policy
state. -/
theorem checking_updates_only_policy (env : Env Req Res Err Pol)
    (c : Conf Req Res Err Pol) (p : Pol)
    (hstate : c.state = .checking p) :
    ∃ c', pollStep env c = some (.next c') ∧
      c'.request = c.request ∧ c'.nCalls = c.nCalls ∧
      c'.policy = p ∧ c'.state = .retrying := by
  exact ⟨{ c with policy := p, state := .retrying },
    by simp [pollStep, hstate], rfl, rfl, rfl, rfl⟩

theorem checking_updates_only_policy_witness :
    ∃ c', pollStep envId confChecking = some (.next c') ∧
      c'.request = confChecking.request ∧ c'.nCalls = confChecking.nCalls ∧
      c'.policy = 1 ∧ c'.state = .retrying :=
  checking_updates_only_policy envId confChecking 1 rfl

/-- C5: the phase is always exactly one of `Called`, `Checking`, `Retrying`
(first and second conjuncts: the initial state of `ResponseFuture::new` is
`Called`, and every `State` value matches exactly one of the three
constructors), and every continuing transition follows the strict cycle
`Called → Checking → Retrying → Called`, the `Checking → Retrying` move
installing the resolved policy state (third conjunct). -/
theorem state_machine_cycle (Req Res Err Pol : Type) :
    (∀ (request : Option Req) (p : Pol) (fut : Outcome Res Err),
       (ResponseFuture.new request p fut : Conf Req Res Err Pol).state =
         .called fut) ∧
    (∀ s : State Res Err Pol,
       ((∃ r, s = .called r) ∧ (¬ ∃ p, s = .checking p) ∧ s ≠ .retrying) ∨
       ((∃ p, s = .checking p) ∧ (¬ ∃ r, s = .called r) ∧ s ≠ .retrying) ∨
       (s = .retrying ∧ (¬ ∃ r, s = .called r) ∧ (¬ ∃ p, s = .checking p))) ∧
    (∀ (env : Env Req Res Err Pol) (c c' : Conf Req Res Err Pol),
       pollStep env c = some (.next c') →
       (∀ r, c.state = .called r → ∃ p, c'.state = .checking p) ∧
       (∀ p, c.state = .checking p → c'.state = .retrying ∧ c'.policy = p) ∧
       (c.state = .retrying → ∃ r, c'.state = .called r)) := by
  refine ⟨fun request p fut => rfl, fun s => by cases s <;> simp, ?_⟩
  intro env c c' h
  obtain ⟨req, pol, st, n⟩ := c
  cases st with
  | called r =>
    refine ⟨fun r0 _ => ?_, fun p hp => by simp at hp, fun hr => by simp at hr⟩
    rcases req with _ | rq
    · simp [pollStep] at h
    · rcases hrt : env.retry pol rq r with _ | p2
      · simp [pollStep, hrt] at h
      · simp only [pollStep, hrt, Option.some.injEq, StepRes.next.injEq] at h
        subst h
        exact ⟨p2, rfl⟩
  | checking p2 =>
    refine ⟨fun r0 hr0 => by simp at hr0, fun p hp => ?_, fun hr => by simp at hr⟩
    injection hp with hp
    subst hp
    simp only [pollStep, Option.some.injEq, StepRes.next.injEq] at h
    subst h
    exact ⟨rfl, rfl⟩
  | retrying =>
    refine ⟨fun r0 hr0 => by simp at hr0, fun p hp => by simp at hp, fun _ => ?_⟩
    rcases hrd : env.poll_ready n with e | u
    · simp [pollStep, hrd] at h
    · rcases req with _ | rq
      · simp [pollStep, hrd] at h
      · simp only [pollStep, hrd, Option.some.injEq, StepRes.next.injEq] at h
        subst h
        exact ⟨env.call n rq, rfl⟩

theorem state_machine_cycle_witness :
    (⟨some 4, 1, .retrying, 1⟩ : Conf Nat Nat Nat Nat).state = .retrying ∧
    (⟨some 4, 1, .retrying, 1⟩ : Conf Nat Nat Nat Nat).policy = 1 :=
  ((state_machine_cycle Nat Nat Nat Nat).2.2 envId confChecking
    ⟨some 4, 1, .retrying, 1⟩ rfl).2.1 1 rfl

/-- C6: attempts are strictly sequential. Finalization never issues a call
(first conjunct); a continuing step issues a new service call exactly when
the machine is in `Retrying` and the readiness check resolved `Ok` in that
same step, the call being made immediately with the request taken there
(second conjunct); in every other state the call count is untouched (third
conjunct inside); and a configuration holds at most one pending operation —
its single `state` value matches exactly one constructor (last conjunct). -/
theorem attempts_sequential (Req Res Err Pol : Type) :
    (∀ (env : Env Req Res Err Pol) (c final : Conf Req Res Err Pol)
       (out : Outcome Res Err),
       pollStep env c = some (.done out final) → final.nCalls = c.nCalls) ∧
    (∀ (env : Env Req Res Err Pol) (c c' : Conf Req Res Err Pol),
       pollStep env c = some (.next c') →
       (c.state = .retrying →
          c'.nCalls = c.nCalls + 1 ∧
          ∃ req, c.request = some req ∧ env.poll_ready c.nCalls = .ok () ∧
            c'.state = .called (env.call c.nCalls req)) ∧
       (c.state ≠ .retrying → c'.nCalls = c.nCalls)) ∧
    (∀ s : State Res Err Pol,
       ((∃ r, s = .called r) ∧ (¬ ∃ p, s = .checking p) ∧ s ≠ .retrying) ∨
       ((∃ p, s = .checking p) ∧ (¬ ∃ r, s = .called r) ∧ s ≠ .retrying) ∨
       (s = .retrying ∧ (¬ ∃ r, s = .called r) ∧ (¬ ∃ p, s = .checking p))) := by
  refine ⟨?_, ?_, fun s => by cases s <;> simp⟩
  · intro env c final out h
    obtain ⟨req, pol, st, n⟩ := c
    cases st with
    | called r =>
      rcases req with _ | rq
      · simp only [pollStep, Option.some.injEq, StepRes.done.injEq] at h
        obtain ⟨rfl, rfl⟩ := h
        rfl
      · rcases hrt : env.retry pol rq r with _ | p2
        · simp only [pollStep, hrt, Option.some.injEq, StepRes.done.injEq] at h
          obtain ⟨rfl, rfl⟩ := h
          rfl
        · simp [pollStep, hrt] at h
    | checking p2 => simp [pollStep] at h
    | retrying =>
      rcases hrd : env.poll_ready n with e | u
      · simp only [pollStep, hrd, Option.some.injEq, StepRes.done.injEq] at h
        obtain ⟨rfl, rfl⟩ := h
        rfl
      · rcases req with _ | rq <;> simp [pollStep, hrd] at h
  · intro env c c' h
    obtain ⟨req, pol, st, n⟩ := c
    cases st with
    | called r =>
      refine ⟨fun hr => by simp at hr, fun _ => ?_⟩
      rcases req with _ | rq
      · simp [pollStep] at h
      · rcases hrt : env.retry pol rq r with _ | p2
        · simp [pollStep, hrt] at h
        · simp only [pollStep, hrt, Option.some.injEq, StepRes.next.injEq] at h
          subst h
          rfl
    | checking p2 =>
      refine ⟨fun hr => by simp at hr, fun _ => ?_⟩
      simp only [pollStep, Option.some.injEq, StepRes.next.injEq] at h
      subst h
      rfl
    | retrying =>
      refine ⟨fun _ => ?_, fun hne => by simp at hne⟩
      rcases hrd : env.poll_ready n with e | u
      · simp [pollStep, hrd] at h
      · rcases req with _ | rq
        · simp [pollStep, hrd] at h
        · simp only [pollStep, hrd, Option.some.injEq, StepRes.next.injEq] at h
          subst h
          exact ⟨rfl, rq, rfl, by cases u; rfl, rfl⟩

theorem attempts_sequential_witness :
    (⟨some 4, 0, .called (.error 1), 2⟩ : Conf Nat Nat Nat Nat).nCalls =
      confRetrying.nCalls + 1 ∧
    ∃ req, confRetrying.request = some req ∧
      envId.poll_ready confRetrying.nCalls = .ok () ∧
      (⟨some 4, 0, .called (.error 1), 2⟩ : Conf Nat Nat Nat Nat).state =
        .called (envId.call confRetrying.nCalls req) :=
  ((attempts_sequential Nat Nat Nat Nat).2.1 envId confRetrying
    ⟨some 4, 0, .called (.error 1), 2⟩ rfl).1 rfl

/-- C8: the `expect("retrying requires cloned request")` branch is
unreachable.  The invariant `reqInv` — a request is held in the `Checking`
and `Retrying` states — holds of every freshly constructed future, is
preserved by every continuing poll iteration, and rules out the panic
(`pollStep` never returns `none` under it). -/
theorem expect_panic_unreachable (Req Res Err Pol : Type) :
    (∀ (request : Option Req) (p : Pol) (fut : Outcome Res Err),
       reqInv (ResponseFuture.new request p fut : Conf Req Res Err Pol) = true) ∧
    (∀ (env : Env Req Res Err Pol) (c : Conf Req Res Err Pol),
       reqInv c = true →
       pollStep env c ≠ none ∧
       ∀ c', pollStep env c = some (.next c') → reqInv c' = true) := by
  refine ⟨fun request p fut => rfl, ?_⟩
  intro env c hinv
  obtain ⟨req, pol, st, n⟩ := c
  cases st with
  | called r =>
    constructor
    · rcases req with _ | rq
      · simp [pollStep]
      · rcases hrt : env.retry pol rq r with _ | p2 <;> simp [pollStep, hrt]
    · intro c' h
      rcases req with _ | rq
      · simp [pollStep] at h
      · rcases hrt : env.retry pol rq r with _ | p2
        · simp [pollStep, hrt] at h
        · simp only [pollStep, hrt, Option.some.injEq, StepRes.next.injEq] at h
          subst h
          simp [reqInv]
  | checking p2 =>
    constructor
    · simp [pollStep]
    · intro c' h
      simp only [pollStep, Option.some.injEq, StepRes.next.injEq] at h
      subst h
      simp only [reqInv] at hinv ⊢
      exact hinv
  | retrying =>
    simp only [reqInv] at hinv
    obtain ⟨rq, rfl⟩ := Option.isSome_iff_exists.mp hinv
    constructor
    · rcases hrd : env.poll_ready n with e | u <;> simp [pollStep, hrd]
    · intro c' h
      rcases hrd : env.poll_ready n with e | u
      · simp [pollStep, hrd] at h
      · simp only [pollStep, hrd, Option.some.injEq, StepRes.next.injEq] at h
        subst h
        simp [reqInv]

theorem expect_panic_unreachable_witness :
    pollStep envId confRetrying ≠ none :=
  ((expect_panic_unreachable Nat Nat Nat Nat).2 envId confRetrying rfl).1

/-- Helper for the bounded-attempts theorem: from a configuration that has
just resolved the attempt with call index `j` (as an error) while holding a
request, with the threaded policy state `ps j`, an always-failing service,
an always-ready readiness check and a policy approving exactly the remaining
`k` retries drive the run to completion with the error of call index `N` and
`N + 1` issued calls. -/
theorem run_countdown (env : Env Req Res Err Pol) (N : Nat)
    (ps : Nat → Pol) (errs : Nat → Err)
    (hcall : ∀ k req, env.call k req = .error (errs k))
    (hready : ∀ k, env.poll_ready k = .ok ())
    (hretry_ok : ∀ j, j < N → ∀ req out,
       env.retry (ps j) req out = some (ps (j + 1)))
    (hretry_stop : ∀ req out, env.retry (ps N) req out = none)
    (hclone : ∀ p req, (env.clone_request p req).isSome) :
    ∀ (k j : Nat), j + k = N → ∀ (req : Req) (fuel : Nat), 3 * k < fuel →
      ∃ final,
        run env fuel ⟨some req, ps j, .called (.error (errs j)), j + 1⟩ =
          .done (.error (errs N)) final ∧ final.nCalls = N + 1 := by
  intro k
  induction k with
  | zero =>
    intro j hj req fuel hfuel
    obtain ⟨f, rfl⟩ : ∃ f, fuel = f + 1 := ⟨fuel - 1, by omega⟩
    obtain rfl : j = N := by omega
    exact ⟨⟨some req, ps j, .called (.error (errs j)), j + 1⟩,
      run_done env f (by simp [pollStep, hretry_stop]), rfl⟩
  | succ k ih =>
    intro j hj req fuel hfuel
    obtain ⟨f, rfl⟩ : ∃ f, fuel = f + 3 := ⟨fuel - 3, by omega⟩
    have hlt : j < N := by omega
    have h1 : pollStep env ⟨some req, ps j, .called (.error (errs j)), j + 1⟩ =
        some (.next ⟨some req, ps j, .checking (ps (j + 1)), j + 1⟩) := by
      simp [pollStep, hretry_ok j hlt]
    have h2 : pollStep env ⟨some req, ps j, .checking (ps (j + 1)), j + 1⟩ =
        some (.next ⟨some req, ps (j + 1), .retrying, j + 1⟩) := by
      simp [pollStep]
    obtain ⟨req2, hreq2⟩ := Option.isSome_iff_exists.mp (hclone (ps (j + 1)) req)
    have h3 : pollStep env ⟨some req, ps (j + 1), .retrying, j + 1⟩ =
        some (.next ⟨some req2, ps (j + 1),
          .called (.error (errs (j + 1))), j + 1 + 1⟩) := by
      simp [pollStep, hready, hreq2, hcall]
    rw [show f + 3 = f + 2 + 1 from rfl, run_next env (f + 2) h1,
        show f + 2 = f + 1 + 1 from rfl, run_next env (f + 1) h2,
        run_next env f h3]
    exact ih (j + 1) (by omega) req2 f (by omega)

/-- C1: for a policy that approves exactly `N` retries — its `retry`
answers a decision resolving to the next policy state on the first `N`
outcomes and `None` afterwards, and it can always clone the request — and a
wrapped service that always fails and is always ready, driving the
`ResponseFuture` to completion issues exactly `N + 1` service calls and
returns the outcome of the `(N+1)`-th attempt (the error of call index `N`). -/
theorem bounded_attempts (N : Nat) (env : Env Req Res Err Pol)
    (ps : Nat → Pol) (errs : Nat → Err) (req0 : Req)
    (hcall : ∀ k req, env.call k req = .error (errs k))
    (hready : ∀ k, env.poll_ready k = .ok ())
    (hretry_ok : ∀ j, j < N → ∀ req out,
       env.retry (ps j) req out = some (ps (j + 1)))
    (hretry_stop : ∀ req out, env.retry (ps N) req out = none)
    (hclone : ∀ p req, (env.clone_request p req).isSome) :
    ∃ final,
      run env (3 * N + 1)
        (ResponseFuture.new (some req0) (ps 0) (.error (errs 0))) =
        .done (.error (errs N)) final ∧ final.nCalls = N + 1 := by
  have h := run_countdown env N ps errs hcall hready hretry_ok hretry_stop
    hclone N 0 (by omega) req0 (3 * N + 1) (by omega)
  simpa [ResponseFuture.new] using h

theorem bounded_attempts_witness :
    ∃ final,
      run envCount 7 (ResponseFuture.new (some 5) 2 (.error 0)) =
        .done (.error 20) final ∧ final.nCalls = 3 := by
  have h := bounded_attempts 2 envCount (fun j => 2 - j) (fun k => 10 * k) 5
    (fun k req => rfl) (fun k => rfl)
    (fun j hj req out => by interval_cases j <;> rfl)
    (fun req out => rfl) (fun p req => rfl)
  simpa using h

/-- C7: under the spec's clone contract — `clone_request`, when it produces
anything, produces a copy of the request it is given — the request held by
the future is always the logical call's original request `req0` (or absent),
so whenever an attempt's outcome resolves while a request is held, the
policy's `retry` is consulted with exactly `req0` and the just-resolved
outcome.  First conjunct: the wrapper-built initial configuration holds
`req0` or nothing; second: every continuing step preserves this; third: at a
resolved outcome with a held request, that request is `req0` and the step is
exactly `Policy::retry`'s verdict on `(req0, outcome)`. -/
theorem retry_called_with_original (env : Env Req Res Err Pol) (pol : Pol)
    (req0 : Req)
    (hclone : ∀ p r, env.clone_request p r = none ∨
       env.clone_request p r = some r) :
    heldIsOriginal req0 (retryCall env pol req0) ∧
    (∀ c c' : Conf Req Res Err Pol, heldIsOriginal req0 c →
       pollStep env c = some (.next c') → heldIsOriginal req0 c') ∧
    (∀ (c : Conf Req Res Err Pol) (result : Outcome Res Err) (req : Req),
       heldIsOriginal req0 c → c.state = .called result →
       c.request = some req →
       req = req0 ∧
       pollStep env c =
         some ((env.retry c.policy req0 result).elim
           (.done result c) (fun p => .next { c with state := .checking p }))) := by
  refine ⟨?_, ?_, ?_⟩
  · simpa [heldIsOriginal, retryCall] using hclone pol req0
  · intro c c' hP h
    obtain ⟨req, p, st, n⟩ := c
    cases st with
    | called r =>
      rcases req with _ | rq
      · simp [pollStep] at h
      · rcases hrt : env.retry p rq r with _ | p2
        · simp [pollStep, hrt] at h
        · simp only [pollStep, hrt, Option.some.injEq, StepRes.next.injEq] at h
          subst h
          exact hP
    | checking p2 =>
      simp only [pollStep, Option.some.injEq, StepRes.next.injEq] at h
      subst h
      exact hP
    | retrying =>
      rcases hrd : env.poll_ready n with e | u
      · simp [pollStep, hrd] at h
      · rcases req with _ | rq
        · simp [pollStep, hrd] at h
        · simp only [pollStep, hrd, Option.some.injEq, StepRes.next.injEq] at h
          subst h
          simp only [heldIsOriginal, Option.some.injEq, reduceCtorEq,
            false_or] at hP
          rw [← hP]
          exact hclone p rq
  · intro c result req hP hst hreq
    have hreq0 : req = req0 := by
      rcases hP with h0 | h0
      · rw [hreq] at h0; simp at h0
      · rw [hreq] at h0; exact Option.some.inj h0
    subst hreq0
    refine ⟨rfl, ?_⟩
    obtain ⟨creq, cpol, cst, cn⟩ := c
    simp only at hst hreq
    subst hst
    subst hreq
    rcases hrt : env.retry cpol req result with _ | p2 <;>
      simp [pollStep, hrt]

theorem retry_called_with_original_witness :
    4 = 4 ∧
    pollStep envId (retryCall envId 0 4) =
      some ((envId.retry (retryCall envId 0 4).policy 4
        (envId.call 0 4)).elim
        (.done (envId.call 0 4) (retryCall envId 0 4))
        (fun p => .next { retryCall envId 0 4 with state := .checking p })) :=
  (retry_called_with_original envId 0 4 (fun _ _ => Or.inr rfl)).2.2
    (retryCall envId 0 4) (envId.call 0 4) 4 (Or.inr rfl) rfl rfl
